import Mathlib

/-!
# SpaceX launch browser: the list screen and the detail screen of `src/App.js`

A shallow embedding of the data handling of the two React components.

* Records follow the data model of the API responses the code reads: identifiers and
  names are strings, a launch's `date_utc` is a timestamp, `success` is a boolean,
  `null`, or missing.
* React state is an explicit record; an effect (`fetchData`, `fetchDetails`) is a
  function from the outcomes of its network requests to the state it leaves.
* The network is an input: every request either fails (the awaited promise rejects)
  or yields a value.
* `Array.prototype.sort`, `Promise.all`, property reads and writes on an object
  literal (own properties and those inherited from `Object.prototype`) and the
  operators `||`, `===`, `? :` are modelled by the definitions of the first section.
-/

namespace SpaceX

/-! ## JavaScript values and library operations used by the code -/

/-- The value read from an optional boolean JSON field: `undefined` when the field is
missing from the record, `null`, or a boolean. -/
inductive JsVal where
  | undefined
  | null
  | bool (b : Bool)
  deriving DecidableEq, Repr

/-- The test `v === null`. -/
def JsVal.strictEqNull : JsVal → Bool
  | .null => true
  | _ => false

/-- Truthiness (`ToBoolean`), as used by the condition of `? :`. -/
def JsVal.truthy : JsVal → Bool
  | .bool b => b
  | _ => false

/-- The value of a property read on the rocket index: `undefined`, a string stored by
the code, or the value of the property `k` of `Object.prototype` (a function object,
and for `__proto__` the prototype object itself). -/
inductive PropVal where
  | undefined
  | str (s : String)
  | inherited (k : String)
  deriving DecidableEq, Repr

/-- Truthiness (`ToBoolean`) of a property value: `undefined` and the empty string are
falsy, objects and functions are truthy. -/
def PropVal.truthy : PropVal → Bool
  | .undefined => false
  | .str s => decide (s ≠ "")
  | .inherited _ => true

/-- The expression `a || d` with a string `d`: `a` when `a` is truthy, else `d`. -/
def orElse (a : PropVal) (d : String) : PropVal :=
  if a.truthy then a else .str d

/-- The names of the properties of `Object.prototype` (ECMA-262, section 20.1.3),
which every object literal inherits. All are methods held in writable data
properties, except `__proto__`, which is an accessor. -/
def objectPrototypeKeys : List String :=
  ["constructor", "hasOwnProperty", "isPrototypeOf", "propertyIsEnumerable",
    "toLocaleString", "toString", "valueOf", "__proto__", "__defineGetter__",
    "__defineSetter__", "__lookupGetter__", "__lookupSetter__"]

/-- The own properties of an object literal used as a dictionary from string keys to
strings, in insertion order; its prototype is `Object.prototype`. -/
abbrev Obj := List (String × String)

/-- The own property `k` of `m`, if there is one. -/
def ownGet : Obj → String → Option String
  | [], _ => none
  | (k', v) :: rest, k => if k' = k then some v else ownGet rest k

/-- Writes the own data property `k` of `m`: overwrites it, or adds it at the end. -/
def ownSet : Obj → String → String → Obj
  | [], k, v => [(k, v)]
  | (k', v') :: rest, k, v => if k' = k then (k, v) :: rest else (k', v') :: ownSet rest k v

/-- The property read `m[k]`: the own property when there is one, else the property
inherited from `Object.prototype` when `k` names one, else `undefined`. -/
def objGet (m : Obj) (k : String) : PropVal :=
  match ownGet m k with
  | some v => .str v
  | none => if k ∈ objectPrototypeKeys then .inherited k else .undefined

/-- The assignment `m[k] = v` of a string `v`: an own property is overwritten; without
one, the key `__proto__` reaches the inherited setter, which ignores a value that is
neither an object nor `null` and stores nothing; any other key (also one that names
an inherited method) becomes an own property. -/
def objSet (m : Obj) (k v : String) : Obj :=
  if (ownGet m k).isNone ∧ k = "__proto__" then m else ownSet m k v

/-- Insertion step of `arraySort`: `x` goes before the first `y` with
`comparefn x y ≤ 0`. -/
def orderedInsert {α : Type} (comparefn : α → α → Int) (x : α) : List α → List α
  | [] => [x]
  | y :: ys => if comparefn x y ≤ 0 then x :: y :: ys else y :: orderedInsert comparefn x ys

/-- The call `arr.sort(comparefn)`: a stable sort (ECMAScript 2019) in which `a` stays
before `b` when `comparefn a b ≤ 0`, here by insertion. -/
def arraySort {α : Type} (comparefn : α → α → Int) : List α → List α
  | [] => []
  | x :: xs => orderedInsert comparefn x (arraySort comparefn xs)

/-- A rejected request: network failure or a body that is not JSON. -/
structure FetchError where
  message : String
  deriving DecidableEq, Repr

/-! ## Records -/

/-- A launch record. `date_utc` holds the time value of `new Date(launch.date_utc)`,
in milliseconds since the epoch. -/
structure Launch where
  id : String
  name : String
  date_utc : Int
  success : JsVal
  rocket : String
  payloads : List String
  launchpad : String
  deriving DecidableEq, Repr

/-- A rocket record. -/
structure Rocket where
  id : String
  name : String
  deriving DecidableEq, Repr

/-! ## Launch list screen -/

/-- The comparator of line 26: `(a, b) => new Date(b.date_utc) - new Date(a.date_utc)`. -/
def compareLaunches (a b : Launch) : Int :=
  b.date_utc - a.date_utc

/-- The sort step of `fetchData`: `launchData.sort(...)`. -/
def sortLaunches (launchData : List Launch) : List Launch :=
  arraySort compareLaunches launchData

/-- The rocket index of lines 32-35: `rocketData.forEach(rocket => rocketMap[rocket.id] = rocket.name)`. -/
def buildRocketMap (rocketData : List Rocket) : Obj :=
  rocketData.foldl (fun rocketMap rocket => objSet rocketMap rocket.id rocket.name) []

/-- State of `LaunchListScreen`. -/
structure ListState where
  launches : List Launch
  rockets : Obj
  loading : Bool
  deriving DecidableEq, Repr

/-- The `useState` initial values of `LaunchListScreen`. -/
def ListState.initial : ListState :=
  { launches := [], rockets := [], loading := true }

/-- The effect `fetchData` (lines 20-44), from the outcomes of its two requests. The
rockets request is issued only after the launches request succeeded. -/
def fetchData (launchFetch : Except FetchError (List Launch))
    (rocketFetch : Except FetchError (List Rocket)) (s : ListState) : ListState :=
  match launchFetch with
  | .error _ => { s with loading := false }
  | .ok launchData =>
    let launchData := sortLaunches launchData
    match rocketFetch with
    | .error _ => { s with loading := false }
    | .ok rocketData =>
      let rocketMap := buildRocketMap rocketData
      { launches := launchData, rockets := rocketMap, loading := false }

/-- The callback of `launches.filter` (lines 49-56) for one launch, `now` being the
value of `new Date()` read by this call. -/
def keepLaunch (filter : String) (now : Int) (launch : Launch) : Bool :=
  if filter = "Past" then decide (launch.date_utc < now)
  else if filter = "Upcoming" then decide (launch.date_utc ≥ now)
  else true

/-- The filter loop from call number `k` on; `clock k` is the reading of `new Date()`
in the `k`-th call of the callback. -/
def filterFrom (filter : String) (clock : Nat → Int) : Nat → List Launch → List Launch
  | _, [] => []
  | k, launch :: rest =>
    if keepLaunch filter (clock k) launch then launch :: filterFrom filter clock (k + 1) rest
    else filterFrom filter clock (k + 1) rest

/-- The list `filteredLaunches` of lines 49-56. -/
def filteredLaunches (filter : String) (clock : Nat → Int) (launches : List Launch) : List Launch :=
  filterFrom filter clock 0 launches

/-- Line 68: `rockets[item.rocket] || "Unknown Rocket"`. -/
def rocketName (rockets : Obj) (item : Launch) : PropVal :=
  orElse (objGet rockets item.rocket) "Unknown Rocket"

/-- Line 69, list screen: `item.success === null ? "N/A" : item.success ? "Success" : "Failed"`. -/
def renderItemSuccessStatus (item : Launch) : String :=
  if item.success.strictEqNull then "N/A" else if item.success.truthy then "Success" else "Failed"

/-- Line 150, detail screen: `launch.success === null ? "N/A" : launch.success ? "Success" : "Failed"`. -/
def detailSuccessStatus (launch : Launch) : String :=
  if launch.success.strictEqNull then "N/A" else if launch.success.truthy then "Success" else "Failed"

/-! ## Launch detail screen -/

/-- A payload record. -/
structure Payload where
  id : String
  name : Option String
  type : Option String
  deriving DecidableEq, Repr

/-- A launchpad record. -/
structure Launchpad where
  id : String
  name : String
  deriving DecidableEq, Repr

/-- Bookkeeping of one `Promise.all` call: a slot per input promise (`none` while that
promise is pending), the number of slots still to fill, and the result once the
combined promise has settled. -/
structure AllState (α : Type) where
  values : List (Option α)
  remaining : Nat
  settled : Option (Except FetchError (List α))

/-- The slots read in index order, when every slot is filled. -/
def collect {α : Type} : List (Option α) → Option (List α)
  | [] => some []
  | none :: _ => none
  | some v :: rest => (collect rest).map (fun vs => v :: vs)

/-- `Promise.all` over `n` promises before any of them settles; with no input promise
the combined promise is fulfilled at once with the empty array. -/
def AllState.start {α : Type} (n : Nat) : AllState α :=
  { values := List.replicate n none, remaining := n,
    settled := if n = 0 then some (.ok []) else none }

/-- Settling the combined promise: only the first call has an effect. -/
def AllState.settle {α : Type} (st : AllState α) (r : Except FetchError (List α)) : AllState α :=
  match st.settled with
  | some _ => st
  | none => { st with settled := some r }

/-- Reaction of `Promise.all` to its `k`-th input promise settling with `outcome`: a
rejection rejects the combined promise; a value is stored in slot `k`, and the
combined promise is fulfilled with the slots, in index order, once none remains. -/
def AllState.onSettled {α : Type} (st : AllState α) (k : Nat) (outcome : Except FetchError α) :
    AllState α :=
  match outcome with
  | .error e => st.settle (.error e)
  | .ok v =>
    if (st.values.getD k none).isSome then st
    else
      let values := st.values.set k (some v)
      let remaining := st.remaining - 1
      let st' : AllState α := { st with values := values, remaining := remaining }
      if remaining = 0 then
        match collect values with
        | some vs => st'.settle (.ok vs)
        | none => st'
      else st'

/-- The `k`-th input promise settles, with the outcome `outcomes[k]`. -/
def AllState.event {α : Type} (outcomes : List (Except FetchError α)) (st : AllState α)
    (k : Nat) : AllState α :=
  match outcomes[k]? with
  | some outcome => st.onSettled k outcome
  | none => st

/-- The call `await Promise.all(promises)`, where the `k`-th promise settles with
`outcomes[k]` and the promises settle in the order `order` (a list of indices).
`none`: the combined promise is still pending after these events. -/
def promiseAll {α : Type} (outcomes : List (Except FetchError α)) (order : List Nat) :
    Option (Except FetchError (List α)) :=
  (order.foldl (AllState.event outcomes) (AllState.start outcomes.length)).settled

/-- What holds of the bookkeeping of `Promise.all` after the promises of `done` have
all been fulfilled: their slots hold their values, the other slots are empty, the
counter counts the empty slots, and the combined promise is settled exactly when the
counter is zero, with the slots read in index order. -/
structure AllInv {α : Type} (outcomes : List (Except FetchError α)) (done : List Nat)
    (st : AllState α) : Prop where
  len : st.values.length = outcomes.length
  filled : ∀ i ∈ done, ∀ v, outcomes[i]? = some (.ok v) → st.values[i]? = some (some v)
  empty : ∀ i, i ∉ done → i < outcomes.length → st.values[i]? = some none
  remaining : st.remaining = outcomes.length - done.length
  settled : st.settled = if st.remaining = 0 then (collect st.values).map Except.ok else none

/-- The three kinds of request of the detail screen. `payload k id` is the outcome of
the `k`-th request of the payload batch, which asks for payload `id`. -/
structure Network where
  rocket : String → Except FetchError Rocket
  payload : Nat → String → Except FetchError Payload
  launchpad : String → Except FetchError Launchpad

/-- State of `LaunchDetailScreen`. -/
structure DetailState where
  rocket : Option Rocket
  payloads : List Payload
  launchpad : Option Launchpad
  loading : Bool
  deriving DecidableEq, Repr

/-- The `useState` initial values of `LaunchDetailScreen`. -/
def DetailState.initial : DetailState :=
  { rocket := none, payloads := [], launchpad := none, loading := true }

/-- Lines 121-123: one request per id of `launch.payloads`, in the order of the ids. -/
def payloadPromises (net : Network) (launch : Launch) : List (Except FetchError Payload) :=
  launch.payloads.enum.map (fun p => net.payload p.1 p.2)

/-- The effect `fetchDetails` (lines 113-137): the requests are awaited one after the
other, each `set...` call runs as soon as its data has arrived, and the `catch` block
only clears `loading`. `order` is the order in which the payload requests settle. -/
def fetchDetails (net : Network) (order : List Nat) (launch : Launch) (s : DetailState) :
    DetailState :=
  match net.rocket launch.rocket with
  | .error _ => { s with loading := false }
  | .ok rocketData =>
    let s := { s with rocket := some rocketData }
    match promiseAll (payloadPromises net launch) order with
    | none => s
    | some (.error _) => { s with loading := false }
    | some (.ok payloadData) =>
      let s := { s with payloads := payloadData }
      match net.launchpad launch.launchpad with
      | .error _ => { s with loading := false }
      | .ok launchpadData => { s with launchpad := some launchpadData, loading := false }

/-! ## Sample records -/

/-- Launch `a` of the scenario: dated 2020-01-01. -/
def launchA : Launch :=
  { id := "a", name := "A", date_utc := 1577836800000, success := .bool true,
    rocket := "r1", payloads := ["p2", "p1"], launchpad := "lp1" }

/-- Launch `b` of the scenario: dated 2024-01-01. -/
def launchB : Launch :=
  { id := "b", name := "B", date_utc := 1704067200000, success := .null,
    rocket := "r2", payloads := [], launchpad := "lp1" }

/-- A launch record without a `success` field. -/
def launchNoSuccess : Launch :=
  { id := "c", name := "C", date_utc := 1609459200000, success := .undefined,
    rocket := "r1", payloads := ["p1"], launchpad := "lp1" }

/-- A rocket record whose name is the empty string. -/
def namelessRocket : Rocket :=
  { id := "r1", name := "" }

/-- A rocket record. -/
def falcon9 : Rocket :=
  { id := "r1", name := "Falcon 9" }

/-- A second record with the id of `falcon9`. -/
def falcon9b : Rocket :=
  { id := "r1", name := "Falcon 9 Block 5" }

/-- A rocket record with another id. -/
def starship : Rocket :=
  { id := "r2", name := "Starship" }

/-- A rocket record whose id is the name of the prototype accessor. -/
def protoRocket : Rocket :=
  { id := "__proto__", name := "X" }

/-- A launch whose rocket id is the name of an inherited method. -/
def launchCtor : Launch :=
  { id := "d", name := "D", date_utc := 1609459200000, success := .null,
    rocket := "constructor", payloads := [], launchpad := "lp1" }

/-- A launch whose rocket id is the name of the prototype accessor. -/
def launchProto : Launch :=
  { id := "e", name := "E", date_utc := 1609459200000, success := .null,
    rocket := "__proto__", payloads := [], launchpad := "lp1" }

/-- A launchpad record. -/
def pad39A : Launchpad :=
  { id := "lp1", name := "KSC LC 39A" }

/-- A network on which every request succeeds; the payload request for `id` yields a
record with that id. -/
def netOk : Network :=
  { rocket := fun _ => .ok falcon9
    payload := fun _ id => .ok { id := id, name := none, type := none }
    launchpad := fun _ => .ok pad39A }

/-- A network on which the rocket request succeeds and every payload request fails. -/
def netPayloadFails : Network :=
  { rocket := fun _ => .ok falcon9
    payload := fun _ _ => .error ⟨"Network request failed"⟩
    launchpad := fun _ => .ok pad39A }

/-! ## Sorting -/

theorem orderedInsert_perm {α : Type} (cmp : α → α → Int) (x : α) (ys : List α) :
    (orderedInsert cmp x ys).Perm (x :: ys) := by
  induction ys with
  | nil => exact List.Perm.refl _
  | cons y ys ih =>
    unfold orderedInsert
    split
    · exact List.Perm.refl _
    · exact (List.Perm.cons y ih).trans (List.Perm.swap x y ys)

theorem arraySort_perm {α : Type} (cmp : α → α → Int) (xs : List α) :
    (arraySort cmp xs).Perm xs := by
  induction xs with
  | nil => exact List.Perm.refl _
  | cons x xs ih =>
    unfold arraySort
    exact (orderedInsert_perm cmp x _).trans (List.Perm.cons x ih)

theorem orderedInsert_descending (x : Launch) (ys : List Launch)
    (h : ys.Pairwise (fun a b => b.date_utc ≤ a.date_utc)) :
    (orderedInsert compareLaunches x ys).Pairwise (fun a b => b.date_utc ≤ a.date_utc) := by
  induction ys with
  | nil => simp [orderedInsert]
  | cons y ys ih =>
    rw [List.pairwise_cons] at h
    unfold orderedInsert
    split
    · rename_i hle
      have hyx : y.date_utc ≤ x.date_utc := by
        unfold compareLaunches at hle; omega
      refine List.Pairwise.cons ?_ (List.Pairwise.cons h.1 h.2)
      intro z hz
      rcases List.mem_cons.mp hz with rfl | hz
      · exact hyx
      · exact le_trans (h.1 z hz) hyx
    · rename_i hgt
      have hxy : x.date_utc ≤ y.date_utc := by
        unfold compareLaunches at hgt; omega
      refine List.Pairwise.cons ?_ (ih h.2)
      intro z hz
      rcases List.mem_cons.mp ((orderedInsert_perm compareLaunches x ys).mem_iff.mp hz) with rfl | hz
      · exact hxy
      · exact h.1 z hz

theorem sortLaunches_pairwise (launchData : List Launch) :
    (sortLaunches launchData).Pairwise (fun a b => b.date_utc ≤ a.date_utc) := by
  unfold sortLaunches
  induction launchData with
  | nil => simp [arraySort]
  | cons x xs ih =>
    unfold arraySort
    exact orderedInsert_descending x _ ih

/-- C1: the list produced by the sort step is descending by date: whenever `i < j` are
positions of the sorted list, the launch at `i` is dated no earlier than the one at `j`. -/
theorem sortLaunches_descending (launchData : List Launch) (i j : Nat) (a b : Launch)
    (hij : i < j) (hi : (sortLaunches launchData)[i]? = some a)
    (hj : (sortLaunches launchData)[j]? = some b) :
    a.date_utc ≥ b.date_utc := by
  have hp := sortLaunches_pairwise launchData
  rw [List.pairwise_iff_getElem] at hp
  obtain ⟨hi', rfl⟩ := List.getElem?_eq_some_iff.mp hi
  obtain ⟨hj', rfl⟩ := List.getElem?_eq_some_iff.mp hj
  exact hp i j hi' hj' hij

theorem sortLaunches_descending_witness :
    sortLaunches [launchA, launchB] = [launchB, launchA] ∧
      launchB.date_utc ≥ launchA.date_utc :=
  ⟨by decide, sortLaunches_descending [launchA, launchB] 0 1 launchB launchA (by decide)
    (by decide) (by decide)⟩

/-- C10: the sort step only reorders: the sorted list is a permutation of the fetched
list, with the same length and the same multiset of launches, and it is the list that
`fetchData` stores when both requests succeed. -/
theorem sortLaunches_perm (launchData : List Launch) :
    (sortLaunches launchData).Perm launchData ∧
      (sortLaunches launchData).length = launchData.length ∧
      ((sortLaunches launchData : List Launch) : Multiset Launch) = (launchData : Multiset Launch) ∧
      (∀ l : Launch, (sortLaunches launchData).count l = launchData.count l) ∧
      ∀ (rocketData : List Rocket) (s : ListState),
        (fetchData (.ok launchData) (.ok rocketData) s).launches = sortLaunches launchData := by
  have hp : (sortLaunches launchData).Perm launchData := arraySort_perm _ _
  exact ⟨hp, hp.length_eq, Quotient.sound hp, fun l => hp.count_eq l, fun _ _ => rfl⟩

/-! ## Filtering -/

theorem filterFrom_const (filter : String) (now : Int) (k : Nat) (launches : List Launch) :
    filterFrom filter (fun _ => now) k launches = launches.filter (keepLaunch filter now) := by
  induction launches generalizing k with
  | nil => rfl
  | cons l ls ih =>
    unfold filterFrom
    by_cases h : keepLaunch filter now l = true
    · simp [h, ih]
    · simp [h, ih]

theorem keepLaunch_past (now : Int) (l : Launch) :
    keepLaunch "Past" now l = decide (l.date_utc < now) := by
  simp [keepLaunch]

theorem keepLaunch_upcoming (now : Int) (l : Launch) :
    keepLaunch "Upcoming" now l = !keepLaunch "Past" now l := by
  unfold keepLaunch
  rw [if_neg (by decide), if_pos rfl, if_pos rfl]
  by_cases h : l.date_utc < now
  · have h2 : ¬ l.date_utc ≥ now := by omega
    simp [h, h2]
  · have h2 : l.date_utc ≥ now := by omega
    simp [h, h2]

theorem filterFrom_all (clock : Nat → Int) (k : Nat) (launches : List Launch) :
    filterFrom "All" clock k launches = launches := by
  induction launches generalizing k with
  | nil => rfl
  | cons l ls ih =>
    unfold filterFrom
    simp [keepLaunch, ih]

/-- C2: for a fixed `now`, the Past result and the Upcoming result partition the list:
together they are a rearrangement of it, no launch is in both, every launch of the
list is in exactly one, Past holds exactly the launches dated strictly before `now`,
and a launch dated exactly `now` is in Upcoming. -/
theorem past_upcoming_partition (launches : List Launch) (now : Int) :
    (filteredLaunches "Past" (fun _ => now) launches ++
        filteredLaunches "Upcoming" (fun _ => now) launches).Perm launches ∧
      (∀ l, (filteredLaunches "Past" (fun _ => now) launches).count l +
          (filteredLaunches "Upcoming" (fun _ => now) launches).count l = launches.count l) ∧
      (∀ l, ¬ (l ∈ filteredLaunches "Past" (fun _ => now) launches ∧
          l ∈ filteredLaunches "Upcoming" (fun _ => now) launches)) ∧
      (∀ l, l ∈ launches →
        (l ∈ filteredLaunches "Past" (fun _ => now) launches ∨
          l ∈ filteredLaunches "Upcoming" (fun _ => now) launches)) ∧
      (∀ l, l ∈ filteredLaunches "Past" (fun _ => now) launches ↔
        l ∈ launches ∧ l.date_utc < now) ∧
      (∀ l, l ∈ filteredLaunches "Upcoming" (fun _ => now) launches ↔
        l ∈ launches ∧ l.date_utc ≥ now) ∧
      (∀ l, l ∈ launches → l.date_utc = now →
        l ∈ filteredLaunches "Upcoming" (fun _ => now) launches) := by
  have hperm : (filteredLaunches "Past" (fun _ => now) launches ++
      filteredLaunches "Upcoming" (fun _ => now) launches).Perm launches := by
    unfold filteredLaunches
    rw [filterFrom_const, filterFrom_const]
    have h := List.filter_append_perm (keepLaunch "Past" now) launches
    have he : (fun l => keepLaunch "Upcoming" now l) = fun l => !keepLaunch "Past" now l :=
      funext (keepLaunch_upcoming now)
    rw [show keepLaunch "Upcoming" now = fun l => !keepLaunch "Past" now l from he]
    exact h
  have hpast : ∀ l, l ∈ filteredLaunches "Past" (fun _ => now) launches ↔
      l ∈ launches ∧ l.date_utc < now := by
    intro l
    unfold filteredLaunches
    rw [filterFrom_const, List.mem_filter, keepLaunch_past]
    simp
  have hup : ∀ l, l ∈ filteredLaunches "Upcoming" (fun _ => now) launches ↔
      l ∈ launches ∧ l.date_utc ≥ now := by
    intro l
    unfold filteredLaunches
    rw [filterFrom_const, List.mem_filter, keepLaunch_upcoming, keepLaunch_past]
    simp
  refine ⟨hperm, ?_, ?_, ?_, hpast, hup, ?_⟩
  · intro l
    rw [← List.count_append]
    exact hperm.count_eq l
  · intro l h
    have h1 := ((hpast l).mp h.1).2
    have h2 := ((hup l).mp h.2).2
    omega
  · intro l hl
    by_cases h : l.date_utc < now
    · exact Or.inl ((hpast l).mpr ⟨hl, h⟩)
    · exact Or.inr ((hup l).mpr ⟨hl, by omega⟩)
  · intro l hl h
    exact (hup l).mpr ⟨hl, by omega⟩

/-- C9: with mode "All" the filter returns the list unchanged, whatever the clock
reads during the filtering. -/
theorem filter_all_identity (launches : List Launch) (clock : Nat → Int) :
    filteredLaunches "All" clock launches = launches :=
  filterFrom_all clock 0 launches

/-- The scenario of the specification: launches `a` (2020) and `b` (2024) are sorted to
`[b, a]`; at a `now` in 2025 the Past filter keeps both and the Upcoming filter none. -/
theorem scenario_sort_filter :
    sortLaunches [launchA, launchB] = [launchB, launchA] ∧
      filteredLaunches "Past" (fun _ => 1735689600000) [launchB, launchA] = [launchB, launchA] ∧
      filteredLaunches "Upcoming" (fun _ => 1735689600000) [launchB, launchA] = [] := by
  refine ⟨by decide, by decide, by decide⟩

/-! ## Success label -/

/-- C6: the success label is defined for every launch, is the same on both screens,
and maps `null` to "N/A", `true` to "Success" and `false` to "Failed". -/
theorem successStatus_mapping (launch : Launch) :
    renderItemSuccessStatus launch = detailSuccessStatus launch ∧
      (launch.success = JsVal.null → renderItemSuccessStatus launch = "N/A") ∧
      (launch.success = JsVal.bool true → renderItemSuccessStatus launch = "Success") ∧
      (launch.success = JsVal.bool false → renderItemSuccessStatus launch = "Failed") ∧
      (renderItemSuccessStatus launch = "N/A" ∨ renderItemSuccessStatus launch = "Success" ∨
        renderItemSuccessStatus launch = "Failed") := by
  refine ⟨rfl, ?_, ?_, ?_, ?_⟩
  · intro h
    simp [renderItemSuccessStatus, h, JsVal.strictEqNull]
  · intro h
    simp [renderItemSuccessStatus, h, JsVal.strictEqNull, JsVal.truthy]
  · intro h
    simp [renderItemSuccessStatus, h, JsVal.strictEqNull, JsVal.truthy]
  · unfold renderItemSuccessStatus
    split
    · exact Or.inl rfl
    · split
      · exact Or.inr (Or.inl rfl)
      · exact Or.inr (Or.inr rfl)

theorem successStatus_mapping_witness :
    renderItemSuccessStatus launchB = "N/A" ∧ detailSuccessStatus launchB = "N/A" ∧
      renderItemSuccessStatus launchA = "Success" ∧ detailSuccessStatus launchA = "Success" :=
  ⟨(successStatus_mapping launchB).2.1 rfl,
    (successStatus_mapping launchB).1 ▸ (successStatus_mapping launchB).2.1 rfl,
    (successStatus_mapping launchA).2.2.1 rfl,
    (successStatus_mapping launchA).1 ▸ (successStatus_mapping launchA).2.2.1 rfl⟩

/-- C7: a launch record without a `success` field is labelled "Failed" on both
screens, not "N/A": the test `=== null` does not hold for `undefined`, and
`undefined` is falsy. -/
theorem successStatus_absent_is_failed :
    launchNoSuccess.success = JsVal.undefined ∧
      renderItemSuccessStatus launchNoSuccess = "Failed" ∧
      detailSuccessStatus launchNoSuccess = "Failed" ∧
      renderItemSuccessStatus launchNoSuccess ≠ "N/A" := by
  refine ⟨rfl, ?_, ?_, ?_⟩ <;> decide

/-! ## List load -/

/-- C8: when the launches request or the rockets request fails, `fetchData` leaves
`launches` empty and the rocket index empty and clears `loading`; and `loading` is
cleared whatever the two outcomes are. -/
theorem fetchData_abort (launchFetch : Except FetchError (List Launch))
    (rocketFetch : Except FetchError (List Rocket)) :
    (((∃ e, launchFetch = .error e) ∨ (∃ e, rocketFetch = .error e)) →
        fetchData launchFetch rocketFetch ListState.initial =
          { launches := [], rockets := [], loading := false }) ∧
      (fetchData launchFetch rocketFetch ListState.initial).loading = false := by
  constructor
  · rintro (⟨e, rfl⟩ | ⟨e, rfl⟩)
    · rfl
    · cases launchFetch <;> rfl
  · cases launchFetch with
    | error e => rfl
    | ok launchData => cases rocketFetch <;> rfl

theorem fetchData_abort_witness :
    fetchData (.ok [launchA, launchB]) (.error ⟨"Network request failed"⟩) ListState.initial =
      { launches := [], rockets := [], loading := false } :=
  (fetchData_abort (.ok [launchA, launchB]) (.error ⟨"Network request failed"⟩)).1
    (Or.inr ⟨_, rfl⟩)

/-! ## Rocket index -/

theorem ownGet_ownSet (m : Obj) (k v k' : String) :
    ownGet (ownSet m k v) k' = if k = k' then some v else ownGet m k' := by
  induction m with
  | nil => simp [ownSet, ownGet]
  | cons p rest ih =>
    obtain ⟨k0, v0⟩ := p
    unfold ownSet
    by_cases h0 : k0 = k
    · subst h0
      by_cases h1 : k0 = k' <;> simp [ownGet, h1]
    · rw [if_neg h0]
      by_cases h1 : k0 = k'
      · subst h1
        have h2 : ¬ k = k0 := fun h => h0 h.symm
        simp [ownGet, h2]
      · simp [ownGet, h1, ih]

theorem ownGet_objSet (m : Obj) (k v k' : String) (hk' : k' ≠ "__proto__") :
    ownGet (objSet m k v) k' = if k = k' then some v else ownGet m k' := by
  unfold objSet
  by_cases h : (ownGet m k).isNone ∧ k = "__proto__"
  · have hne : ¬ k = k' := fun e => hk' (e ▸ h.2)
    rw [if_pos h, if_neg hne]
  · rw [if_neg h, ownGet_ownSet]

theorem ownGet_objSet_proto (m : Obj) (k v : String) (hm : ownGet m "__proto__" = none) :
    ownGet (objSet m k v) "__proto__" = none := by
  unfold objSet
  by_cases hk : k = "__proto__"
  · subst hk
    rw [if_pos ⟨by simp [hm], rfl⟩]
    exact hm
  · rw [if_neg (fun h => hk h.2), ownGet_ownSet, if_neg hk]
    exact hm

theorem ownGet_foldl_proto (rocketData : List Rocket) (m : Obj)
    (hm : ownGet m "__proto__" = none) :
    ownGet (rocketData.foldl (fun rocketMap rocket => objSet rocketMap rocket.id rocket.name) m)
      "__proto__" = none := by
  induction rocketData generalizing m with
  | nil => exact hm
  | cons r rs ih =>
    rw [List.foldl_cons]
    exact ih _ (ownGet_objSet_proto m r.id r.name hm)

theorem ownGet_foldl_of_absent (rocketData : List Rocket) (m : Obj) (k : String)
    (hk : k ≠ "__proto__") (h : ∀ r ∈ rocketData, r.id ≠ k) :
    ownGet (rocketData.foldl (fun rocketMap rocket => objSet rocketMap rocket.id rocket.name) m) k
      = ownGet m k := by
  induction rocketData generalizing m with
  | nil => rfl
  | cons r rs ih =>
    rw [List.foldl_cons, ih _ (fun r' hr' => h r' (List.mem_cons_of_mem _ hr')),
      ownGet_objSet _ _ _ _ hk, if_neg (h r (List.mem_cons_self _ _))]

theorem ownGet_buildRocketMap_last (pre post : List Rocket) (r : Rocket)
    (hk : r.id ≠ "__proto__") (h : ∀ r' ∈ post, r'.id ≠ r.id) :
    ownGet (buildRocketMap (pre ++ r :: post)) r.id = some r.name := by
  unfold buildRocketMap
  rw [List.foldl_append, List.foldl_cons, ownGet_foldl_of_absent post _ _ hk h,
    ownGet_objSet _ _ _ _ hk, if_pos rfl]

/-- C5, as amended: the value of the rocket name shown for a launch. When the rocket
id of the launch is not `__proto__` and rockets of the collection have that id, the
last of them decides: its name when the name is not the empty string, and "Unknown
Rocket" when it is. When no rocket has that id, the value is "Unknown Rocket" if the
id does not name a property of `Object.prototype`, and the inherited property (not a
name, not the sentinel) if it does. For the id `__proto__` the value is always the
inherited property. The index read is the one `fetchData` stores. -/
theorem rocketName_lookup (rocketData : List Rocket) (launch : Launch) :
    (launch.rocket ∉ objectPrototypeKeys → (∀ r ∈ rocketData, r.id ≠ launch.rocket) →
        rocketName (buildRocketMap rocketData) launch = .str "Unknown Rocket") ∧
      (launch.rocket ≠ "__proto__" →
        ∀ (pre post : List Rocket) (r : Rocket), rocketData = pre ++ r :: post →
        r.id = launch.rocket → (∀ r' ∈ post, r'.id ≠ launch.rocket) →
        (r.name ≠ "" → rocketName (buildRocketMap rocketData) launch = .str r.name) ∧
        (r.name = "" → rocketName (buildRocketMap rocketData) launch = .str "Unknown Rocket")) ∧
      (launch.rocket ∈ objectPrototypeKeys → launch.rocket ≠ "__proto__" →
        (∀ r ∈ rocketData, r.id ≠ launch.rocket) →
        rocketName (buildRocketMap rocketData) launch = .inherited launch.rocket) ∧
      (launch.rocket = "__proto__" →
        rocketName (buildRocketMap rocketData) launch = .inherited "__proto__") ∧
      (∀ (launchData : List Launch) (s : ListState),
        (fetchData (.ok launchData) (.ok rocketData) s).rockets = buildRocketMap rocketData) := by
  refine ⟨?_, ?_, ?_, ?_, fun _ _ => rfl⟩
  · intro hkey habs
    have hk : launch.rocket ≠ "__proto__" := fun e => hkey (by rw [e]; decide)
    have hown : ownGet (buildRocketMap rocketData) launch.rocket = none :=
      ownGet_foldl_of_absent rocketData [] _ hk habs
    simp [rocketName, objGet, hown, hkey, orElse, PropVal.truthy]
  · intro hk pre post r hsplit hid hpost
    subst hsplit
    have hown : ownGet (buildRocketMap (pre ++ r :: post)) launch.rocket = some r.name := by
      rw [← hid]
      exact ownGet_buildRocketMap_last pre post r (hid ▸ hk) (fun r' hr' => hid ▸ hpost r' hr')
    constructor
    · intro hne
      simp [rocketName, objGet, hown, orElse, PropVal.truthy, hne]
    · intro he
      simp [rocketName, objGet, hown, orElse, PropVal.truthy, he]
  · intro hkey hk habs
    have hown : ownGet (buildRocketMap rocketData) launch.rocket = none :=
      ownGet_foldl_of_absent rocketData [] _ hk habs
    simp [rocketName, objGet, hown, hkey, orElse, PropVal.truthy]
  · intro hk
    have hown : ownGet (buildRocketMap rocketData) "__proto__" = none :=
      ownGet_foldl_proto rocketData [] rfl
    have hmem : "__proto__" ∈ objectPrototypeKeys := by decide
    simp [rocketName, objGet, hk, hown, hmem, orElse, PropVal.truthy]

theorem rocketName_lookup_witness :
    rocketName (buildRocketMap [falcon9, starship, falcon9b]) launchA
        = .str "Falcon 9 Block 5" ∧
      rocketName (buildRocketMap [starship]) launchA = .str "Unknown Rocket" ∧
      rocketName (buildRocketMap [starship]) launchCtor = .inherited "constructor" ∧
      rocketName (buildRocketMap [protoRocket]) launchProto = .inherited "__proto__" :=
  ⟨((rocketName_lookup [falcon9, starship, falcon9b] launchA).2.1 (by decide)
      [falcon9, starship] [] falcon9b rfl rfl (by simp)).1 (by decide),
    (rocketName_lookup [starship] launchA).1 (by decide) (by decide),
    (rocketName_lookup [starship] launchCtor).2.2.1 (by decide) (by decide) (by decide),
    (rocketName_lookup [protoRocket] launchProto).2.2.2.1 rfl⟩

/-- C5, counterexample: three inputs at which the claim fails. A rocket with the id of
the launch is in the collection and its name is the empty string, yet the value shown
is "Unknown Rocket". No rocket has the id `constructor`, yet the value shown is not
the sentinel but the inherited method. A rocket with id `__proto__` and name "X" is
in the collection, yet the value shown is not "X". -/
theorem rocketName_counterexamples :
    (namelessRocket ∈ [namelessRocket] ∧ namelessRocket.id = launchA.rocket ∧
        rocketName (buildRocketMap [namelessRocket]) launchA = .str "Unknown Rocket" ∧
        rocketName (buildRocketMap [namelessRocket]) launchA ≠ .str namelessRocket.name) ∧
      ((∀ r ∈ [starship], r.id ≠ launchCtor.rocket) ∧
        rocketName (buildRocketMap [starship]) launchCtor ≠ .str "Unknown Rocket") ∧
      (protoRocket ∈ [protoRocket] ∧ protoRocket.id = launchProto.rocket ∧
        rocketName (buildRocketMap [protoRocket]) launchProto ≠ .str protoRocket.name) := by
  refine ⟨⟨by simp, rfl, by decide, by decide⟩, ⟨by decide, by decide⟩,
    ⟨by simp, rfl, by decide⟩⟩

/-! ## Promise.all -/

theorem collect_map_some {α : Type} (vals : List α) :
    collect (vals.map some) = some vals := by
  induction vals with
  | nil => rfl
  | cons v vs ih => simp [collect, ih]

theorem AllInv.start {α : Type} (outcomes : List (Except FetchError α)) :
    AllInv outcomes [] (AllState.start outcomes.length) := by
  refine ⟨by simp [AllState.start], by simp, ?_, by simp [AllState.start], ?_⟩
  · intro i _ hi
    simp [AllState.start, hi]
  · by_cases h : outcomes.length = 0
    · simp [AllState.start, h, collect]
    · simp [AllState.start, h]

theorem AllInv.step {α : Type} {outcomes : List (Except FetchError α)} {done : List Nat}
    {st : AllState α} (h : AllInv outcomes done st) {k : Nat} {v : α}
    (hk : k ∉ done) (hkn : k < outcomes.length) (hlen : done.length < outcomes.length)
    (hv : outcomes[k]? = some (.ok v)) :
    AllInv outcomes (done ++ [k]) (st.onSettled k (.ok v)) := by
  have hnone : st.values[k]? = some none := h.empty k hk hkn
  have hrem : st.remaining = outcomes.length - done.length := h.remaining
  have hset : st.settled = none := by rw [h.settled, if_neg (by omega)]
  have hvals : ∀ i, (st.values.set k (some v))[i]? =
      if k = i then some (some v) else st.values[i]? := by
    intro i
    rw [List.getElem?_set]
    by_cases hki : k = i
    · have hklen : k < st.values.length := by rw [h.len]; exact hkn
      subst hki
      simp [hklen]
    · simp [hki]
  have hfilled : ∀ i ∈ done ++ [k], ∀ w, outcomes[i]? = some (.ok w) →
      (st.values.set k (some v))[i]? = some (some w) := by
    intro i hi w hw
    rw [hvals]
    by_cases hki : k = i
    · subst hki
      rw [hv] at hw
      simp only [Option.some.injEq, Except.ok.injEq] at hw
      simp [hw]
    · rw [if_neg hki]
      rcases List.mem_append.mp hi with hi | hi
      · exact h.filled i hi w hw
      · exact absurd (List.mem_singleton.mp hi).symm hki
  have hempty : ∀ i, i ∉ done ++ [k] → i < outcomes.length →
      (st.values.set k (some v))[i]? = some none := by
    intro i hi hin
    rw [hvals]
    have hki : ¬ k = i := fun e => hi (List.mem_append.mpr (Or.inr (by simp [e])))
    rw [if_neg hki]
    exact h.empty i (fun hd => hi (List.mem_append.mpr (Or.inl hd))) hin
  have hgetD : (st.values.getD k none).isSome = false := by
    simp [hnone]
  unfold AllState.onSettled
  simp only [hgetD, Bool.false_eq_true, if_false]
  by_cases hz : st.remaining - 1 = 0
  · simp only [hz, if_true]
    cases hc : collect (st.values.set k (some v)) with
    | none =>
      refine ⟨by simp [h.len], hfilled, hempty, ?_, ?_⟩
      · simp only [List.length_append, List.length_singleton]; omega
      · simp [hset, hc]
    | some vs =>
      refine ⟨?_, ?_, ?_, ?_, ?_⟩
      · simp [AllState.settle, hset, h.len]
      · simpa [AllState.settle, hset] using hfilled
      · simpa [AllState.settle, hset] using hempty
      · simp only [AllState.settle, hset, List.length_append, List.length_singleton]; omega
      · simp [AllState.settle, hset, hc, hz]
  · simp only [hz, if_false]
    refine ⟨by simp [h.len], hfilled, hempty, ?_, ?_⟩
    · simp only [List.length_append, List.length_singleton]; omega
    · simp [hset, hz]

theorem AllState.settled_stable {α : Type} (st : AllState α) (k : Nat)
    (outcome : Except FetchError α) (r : Except FetchError (List α))
    (h : st.settled = some r) : (st.onSettled k outcome).settled = some r := by
  unfold AllState.onSettled
  cases outcome with
  | error e => simp [AllState.settle, h]
  | ok v =>
    simp only
    split
    · exact h
    · split
      · split
        · simp [AllState.settle, h]
        · exact h
      · exact h

theorem nodup_length_le (l : List Nat) (n : Nat) (hnd : l.Nodup) (hlt : ∀ k ∈ l, k < n) :
    l.length ≤ n := by
  have hsub : l ⊆ List.range n := fun k hk => List.mem_range.mpr (hlt k hk)
  have := (List.subperm_of_subset hnd hsub).length_le
  simpa using this

theorem foldl_event_inv {α : Type} (outcomes : List (Except FetchError α)) :
    ∀ (rest done : List Nat) (st : AllState α),
      (done ++ rest).Nodup → (∀ k ∈ done ++ rest, k < outcomes.length) →
      ((∀ i ∈ done, ∃ v, outcomes[i]? = some (.ok v)) → AllInv outcomes done st) →
      ((∃ i ∈ done, ∃ e, outcomes[i]? = some (.error e)) → ∃ e, st.settled = some (.error e)) →
      ((∀ i ∈ done ++ rest, ∃ v, outcomes[i]? = some (.ok v)) →
          AllInv outcomes (done ++ rest) (rest.foldl (AllState.event outcomes) st)) ∧
        ((∃ i ∈ done ++ rest, ∃ e, outcomes[i]? = some (.error e)) →
          ∃ e, (rest.foldl (AllState.event outcomes) st).settled = some (.error e)) := by
  intro rest
  induction rest with
  | nil =>
    intro done st _ _ hok herr
    simp only [List.append_nil, List.foldl_nil]
    exact ⟨hok, herr⟩
  | cons k rest ih =>
    intro done st hnd hlt hok herr
    have happ : done ++ k :: rest = (done ++ [k]) ++ rest := by simp
    rw [happ] at hnd hlt ⊢
    rw [List.foldl_cons]
    have hkn : k < outcomes.length := hlt k (by simp)
    have hndk : (done ++ [k]).Nodup := (List.nodup_append.mp hnd).1
    have hkd : k ∉ done := by
      intro hmem
      have := (List.nodup_append.mp hndk).2.2
      exact this hmem (List.mem_singleton_self k)
    have hlen : done.length < outcomes.length := by
      have := nodup_length_le (done ++ [k]) outcomes.length hndk
        (fun i hi => hlt i (List.mem_append.mpr (Or.inl hi)))
      simp only [List.length_append, List.length_singleton] at this
      omega
    obtain ⟨o, ho⟩ : ∃ o, outcomes[k]? = some o := ⟨outcomes[k], List.getElem?_eq_getElem hkn⟩
    have hev : AllState.event outcomes st k = st.onSettled k o := by
      simp [AllState.event, ho]
    refine ih (done ++ [k]) (AllState.event outcomes st k) hnd hlt ?_ ?_
    · intro hall
      have hdone : ∀ i ∈ done, ∃ v, outcomes[i]? = some (.ok v) :=
        fun i hi => hall i (List.mem_append.mpr (Or.inl hi))
      obtain ⟨v, hv⟩ := hall k (by simp)
      have hov : o = .ok v := by
        rw [ho] at hv
        exact Option.some.inj hv
      rw [hev, hov]
      exact (hok hdone).step hkd hkn hlen hv
    · rintro ⟨i, hi, e, he⟩
      rw [hev]
      by_cases hprev : ∃ i ∈ done, ∃ e, outcomes[i]? = some (.error e)
      · obtain ⟨e', he'⟩ := herr hprev
        exact ⟨e', AllState.settled_stable st k o _ he'⟩
      · have hik : i = k := by
          rcases List.mem_append.mp hi with hi | hi
          · exact absurd ⟨i, hi, e, he⟩ hprev
          · exact List.mem_singleton.mp hi
        subst hik
        have hoe : o = .error e := by
          rw [ho] at he
          exact Option.some.inj he
        have hdone : ∀ j ∈ done, ∃ v, outcomes[j]? = some (.ok v) := by
          intro j hj
          have hjn : j < outcomes.length := hlt j (by simp [hj])
          cases hoj : outcomes[j] with
          | ok v => exact ⟨v, by rw [List.getElem?_eq_getElem hjn, hoj]⟩
          | error e' =>
            exact absurd ⟨j, hj, e', by rw [List.getElem?_eq_getElem hjn, hoj]⟩ hprev
        have hinv := hok hdone
        have hnone : st.settled = none := by
          rw [hinv.settled, if_neg (by rw [hinv.remaining]; omega)]
        exact ⟨e, by simp [hoe, AllState.onSettled, AllState.settle, hnone]⟩

theorem promiseAll_inv {α : Type} (outcomes : List (Except FetchError α)) (order : List Nat)
    (hperm : order.Perm (List.range outcomes.length)) :
    ((∀ i ∈ order, ∃ v, outcomes[i]? = some (.ok v)) →
        AllInv outcomes order (order.foldl (AllState.event outcomes) (AllState.start outcomes.length))) ∧
      ((∃ i ∈ order, ∃ e, outcomes[i]? = some (.error e)) →
        ∃ e, promiseAll outcomes order = some (.error e)) := by
  have hnd : ([] ++ order).Nodup := by
    simpa using hperm.nodup_iff.mpr (List.nodup_range _)
  have hlt : ∀ k ∈ [] ++ order, k < outcomes.length := by
    intro k hk
    exact List.mem_range.mp (hperm.mem_iff.mp (by simpa using hk))
  have := foldl_event_inv outcomes order [] (AllState.start outcomes.length) hnd hlt
    (fun _ => AllInv.start outcomes) (by simp)
  simpa [promiseAll] using this

/-- When every input promise is fulfilled, `Promise.all` is fulfilled with the values
in index order, whatever the order in which the promises settle. -/
theorem promiseAll_ok {α : Type} (vals : List α) (order : List Nat)
    (hperm : order.Perm (List.range vals.length)) :
    promiseAll (vals.map (fun v => (Except.ok v : Except FetchError α))) order
      = some (.ok vals) := by
  generalize hout : vals.map (fun v => (Except.ok v : Except FetchError α)) = outcomes
  have hlen : outcomes.length = vals.length := by rw [← hout, List.length_map]
  have hget : ∀ i (hi : i < vals.length), outcomes[i]? = some (.ok vals[i]) := by
    intro i hi
    rw [← hout, List.getElem?_map, List.getElem?_eq_getElem hi]
    rfl
  have hperm' : order.Perm (List.range outcomes.length) := by rw [hlen]; exact hperm
  have hall : ∀ i ∈ order, ∃ v, outcomes[i]? = some (.ok v) := by
    intro i hi
    have hin : i < vals.length := List.mem_range.mp (hperm.mem_iff.mp hi)
    exact ⟨vals[i], hget i hin⟩
  have hinv := (promiseAll_inv outcomes order hperm').1 hall
  have hvalues : (order.foldl (AllState.event outcomes)
      (AllState.start outcomes.length)).values = vals.map some := by
    apply List.ext_getElem?
    intro i
    by_cases hin : i < vals.length
    · have hi : i ∈ order := hperm.mem_iff.mpr (List.mem_range.mpr hin)
      rw [hinv.filled i hi vals[i] (hget i hin), List.getElem?_map,
        List.getElem?_eq_getElem hin]
      rfl
    · have h1 : (vals.map some)[i]? = none :=
        List.getElem?_eq_none (by rw [List.length_map]; omega)
      rw [h1]
      exact List.getElem?_eq_none (by rw [hinv.len]; omega)
  have hrem := hinv.remaining
  have hol : order.length = vals.length := by simpa using hperm.length_eq
  unfold promiseAll
  rw [hinv.settled, if_pos (by rw [hrem]; omega), hvalues, collect_map_some]
  rfl

/-! ## Detail load -/

theorem exists_map_ok {α : Type} (l : List (Except FetchError α))
    (h : ∀ o ∈ l, ∃ v, o = Except.ok v) : ∃ vals : List α, l = vals.map Except.ok := by
  induction l with
  | nil => exact ⟨[], rfl⟩
  | cons o os ih =>
    obtain ⟨v, rfl⟩ := h o (List.mem_cons_self _ _)
    obtain ⟨vs, rfl⟩ := ih (fun o' ho' => h o' (List.mem_cons_of_mem _ ho'))
    exact ⟨v :: vs, rfl⟩

theorem payloadPromises_getElem? (net : Network) (launch : Launch) (k : Nat) :
    (payloadPromises net launch)[k]? = (launch.payloads[k]?).map (fun id => net.payload k id) := by
  unfold payloadPromises
  rw [List.getElem?_map, List.getElem?_enum]
  cases launch.payloads[k]? <;> rfl

theorem payloadPromises_length (net : Network) (launch : Launch) :
    (payloadPromises net launch).length = launch.payloads.length := by
  simp [payloadPromises]

theorem fetchDetails_of_payloads_ok (net : Network) (order : List Nat) (launch : Launch)
    (rocketData : Rocket) (fetched : List Payload)
    (hrocket : net.rocket launch.rocket = .ok rocketData)
    (hall : payloadPromises net launch = fetched.map Except.ok)
    (horder : order.Perm (List.range launch.payloads.length)) :
    fetchDetails net order launch DetailState.initial =
      match net.launchpad launch.launchpad with
      | .error _ => { rocket := some rocketData, payloads := fetched, launchpad := none,
                      loading := false }
      | .ok launchpadData => { rocket := some rocketData, payloads := fetched,
                               launchpad := some launchpadData, loading := false } := by
  have hlen : fetched.length = launch.payloads.length := by
    rw [← payloadPromises_length net launch, hall, List.length_map]
  have hp : promiseAll (payloadPromises net launch) order = some (.ok fetched) := by
    rw [hall]
    exact promiseAll_ok fetched order (by rw [hlen]; exact horder)
  unfold fetchDetails
  simp only [hrocket, hp]
  cases net.launchpad launch.launchpad <;> rfl

/-- C4: when the rocket request and every payload request succeed, the payload list
left by `fetchDetails` has the length of `launch.payloads` and its `k`-th element is
the payload that the `k`-th request, for the `k`-th id, returned, whatever the order
in which the payload requests settle. -/
theorem fetchDetails_payload_order (net : Network) (order : List Nat) (launch : Launch)
    (rocketData : Rocket)
    (hrocket : net.rocket launch.rocket = .ok rocketData)
    (hall : ∀ k id, launch.payloads[k]? = some id → ∃ p, net.payload k id = .ok p)
    (horder : order.Perm (List.range launch.payloads.length)) :
    (fetchDetails net order launch DetailState.initial).payloads.length = launch.payloads.length ∧
      ∀ k id, launch.payloads[k]? = some id →
        ∃ p, net.payload k id = .ok p ∧
          (fetchDetails net order launch DetailState.initial).payloads[k]? = some p := by
  have hoks : ∀ o ∈ payloadPromises net launch, ∃ v, o = Except.ok v := by
    intro o ho
    obtain ⟨k, hk⟩ := List.getElem?_of_mem ho
    rw [payloadPromises_getElem?] at hk
    cases hid : launch.payloads[k]? with
    | none => simp [hid] at hk
    | some id =>
      obtain ⟨p, hp⟩ := hall k id hid
      refine ⟨p, ?_⟩
      simp only [hid, Option.map_some', Option.some.injEq] at hk
      rw [← hk, hp]
  obtain ⟨fetched, hfetched⟩ := exists_map_ok _ hoks
  have hlen : fetched.length = launch.payloads.length := by
    rw [← payloadPromises_length net launch, hfetched, List.length_map]
  have hstate : (fetchDetails net order launch DetailState.initial).payloads = fetched := by
    rw [fetchDetails_of_payloads_ok net order launch rocketData fetched hrocket hfetched horder]
    cases net.launchpad launch.launchpad <;> rfl
  rw [hstate]
  refine ⟨hlen, ?_⟩
  intro k id hid
  have hk := payloadPromises_getElem? net launch k
  rw [hfetched, hid, List.getElem?_map] at hk
  cases hf : fetched[k]? with
  | none => simp [hf] at hk
  | some p =>
    simp only [hf, Option.map_some', Option.some.injEq] at hk
    exact ⟨p, hk.symm, rfl⟩

theorem fetchDetails_payload_order_witness :
    (fetchDetails netOk [1, 0] launchA DetailState.initial).payloads.length = 2 ∧
      (fetchDetails netOk [1, 0] launchA DetailState.initial).payloads =
        [{ id := "p2", name := none, type := none }, { id := "p1", name := none, type := none }] :=
  ⟨(fetchDetails_payload_order netOk [1, 0] launchA falcon9 rfl (fun _ _ _ => ⟨_, rfl⟩)
      (by decide)).1, by decide⟩

/-- C3, as amended: what `fetchDetails` leaves when a request fails. If the rocket
request fails, nothing fetched is in the state. If the rocket request succeeds and a
payload request fails, the state holds the rocket, no payload at all and no
launchpad. If only the launchpad request fails, the state holds the rocket and all
the payloads and no launchpad. In each case `loading` ends false. -/
theorem fetchDetails_failure (net : Network) (order : List Nat) (launch : Launch)
    (horder : order.Perm (List.range launch.payloads.length)) :
    ((∃ e, net.rocket launch.rocket = .error e) →
        fetchDetails net order launch DetailState.initial =
          { rocket := none, payloads := [], launchpad := none, loading := false }) ∧
      (∀ rocketData, net.rocket launch.rocket = .ok rocketData →
        (∃ k id e, launch.payloads[k]? = some id ∧ net.payload k id = .error e) →
        fetchDetails net order launch DetailState.initial =
          { rocket := some rocketData, payloads := [], launchpad := none, loading := false }) ∧
      (∀ rocketData fetched, net.rocket launch.rocket = .ok rocketData →
        payloadPromises net launch = fetched.map Except.ok →
        (∃ e, net.launchpad launch.launchpad = .error e) →
        fetchDetails net order launch DetailState.initial =
          { rocket := some rocketData, payloads := fetched, launchpad := none,
            loading := false }) := by
  refine ⟨?_, ?_, ?_⟩
  · rintro ⟨e, he⟩
    unfold fetchDetails
    simp only [he]
    rfl
  · rintro rocketData hrocket ⟨k, id, e, hid, he⟩
    have hperm : order.Perm (List.range (payloadPromises net launch).length) := by
      rw [payloadPromises_length]; exact horder
    have hkn : k < launch.payloads.length := (List.getElem?_eq_some_iff.mp hid).1
    have hko : k ∈ order := hperm.mem_iff.mpr (List.mem_range.mpr (by
      rw [payloadPromises_length]; exact hkn))
    have hout : (payloadPromises net launch)[k]? = some (.error e) := by
      rw [payloadPromises_getElem?, hid, Option.map_some', he]
    obtain ⟨e', he'⟩ := (promiseAll_inv (payloadPromises net launch) order hperm).2
      ⟨k, hko, e, hout⟩
    unfold fetchDetails
    simp only [hrocket, he']
    rfl
  · rintro rocketData fetched hrocket hall ⟨e, he⟩
    rw [fetchDetails_of_payloads_ok net order launch rocketData fetched hrocket hall horder]
    simp only [he]

theorem fetchDetails_failure_witness :
    fetchDetails netPayloadFails [1, 0] launchA DetailState.initial =
      { rocket := some falcon9, payloads := [], launchpad := none, loading := false } :=
  (fetchDetails_failure netPayloadFails [1, 0] launchA (by decide)).2.1 falcon9 rfl
    ⟨0, "p2", ⟨"Network request failed"⟩, rfl, rfl⟩

/-- C3, counterexample: the rocket request succeeds and the payload requests fail; the
state left for the view has `loading` false and holds the fetched rocket, so `rocket`
is not `null`. -/
theorem fetchDetails_keeps_rocket :
    netPayloadFails.payload 0 "p2" = .error ⟨"Network request failed"⟩ ∧
      (fetchDetails netPayloadFails [0, 1] launchA DetailState.initial).loading = false ∧
      (fetchDetails netPayloadFails [0, 1] launchA DetailState.initial).rocket = some falcon9 ∧
      (fetchDetails netPayloadFails [0, 1] launchA DetailState.initial).rocket ≠ none := by
  refine ⟨rfl, by decide, by decide, by decide⟩

end SpaceX
